import Mathlib

/-!
Verification of the bbctrl-firmware motion-planner core.

Shallow embedding of `src/plan/planner.c` (buffer pool, queue management,
continuation dispatch, position bridge) and `src/avr/src/axis.c`
(axis-to-motor mapping and vector length).

Modelling conventions:
- the planner buffer ring `mb.bf[PLANNER_BUFFER_POOL_SIZE]` is a function
  `Fin n → MpBuf n`; the pool capacity `PLANNER_BUFFER_POOL_SIZE` comes from
  `planner.h`, which is not part of the shown source, so it is kept as a
  parameter `n` (with `0 < n`, and `n ≤ 255` where the `uint8_t` counter
  arithmetic matters);
- the `nx`/`pv` linked-list pointers of each buffer are `Fin n` indices stored
  in the block record, exactly as the C struct stores pointers;
- C `float` payload values are modelled as rationals `ℚ` (planner side) and as
  reals `ℝ` for `axis.c`'s Euclidean length, where `sqrt` needs `ℝ`;
- the `uint8_t` counter `mb.buffers_available` is a `Nat` with explicit
  mod-256 increment/decrement;
- function pointers (`bf_func`, `cm_func`) are modelled as `Nat` identifiers;
- the `mpBuf_t` struct carries further numeric planning fields not read by any
  of the functions embedded here; `memset` zeroes them together with the
  modelled fields, so they are omitted from the record.
-/

namespace BBCtrl

/-- Number of axes, `AXES` from the firmware configuration (X Y Z A B C). -/
def AXES : Nat := 6

/-- Buffer lifecycle states `mpBufferState` from `planner.h`; `MP_BUFFER_EMPTY`
is the zero value produced by `memset`. -/
inductive BufferState where
  | empty
  | loading
  | queued
  | pending
  | running
deriving DecidableEq

/-- Modelled from the spec: move-type constants (`planner.h` is not in the
shown source); `MOVE_TYPE_NULL` is the `memset` zero value, and the distinct
codes used by `planner.c` are given distinct numbers. -/
def MOVE_TYPE_NULL : Nat := 0

/-- Modelled from the spec: the command move-type code. -/
def MOVE_TYPE_COMMAND : Nat := 1

/-- Modelled from the spec: the dwell move-type code. -/
def MOVE_TYPE_DWELL : Nat := 2

/-- Modelled from the spec: move-state constant `MOVE_OFF` (the zero value). -/
def MOVE_OFF : Nat := 0

/-- Modelled from the spec: move-state constant `MOVE_NEW`. -/
def MOVE_NEW : Nat := 1

/-- Modelled from the spec: status codes from `status.h` (not in the shown
source); only distinctness and identity of the codes matter. -/
def STAT_OK : Nat := 0

/-- Modelled from the spec: the fatal buffer-exhaustion status code. -/
def STAT_BUFFER_FULL_FATAL : Nat := 100

/-- Modelled from the spec: `cm_hard_alarm` (canonical machine, not in the
shown source) raises a fatal alarm carrying the given status code and returns
that status; the raised alarm itself is reported in each operation's result. -/
def cm_hard_alarm (status : Nat) : Nat := status

/-- One planner buffer, `mpBuf_t`: ring links, lifecycle state, move tag and
the payload fields read by the embedded functions.  `value_vector` aliases
`gm.target` and `flag_vector` aliases `unit`, as in the C macros. -/
structure MpBuf (n : Nat) where
  nx : Fin n
  pv : Fin n
  buffer_state : BufferState
  move_type : Nat
  move_state : Nat
  bf_func : Nat
  cm_func : Nat
  move_time : ℚ
  value_vector : Fin AXES → ℚ
  flag_vector : Fin AXES → ℚ

/-- Buffer pool singleton `mpBufferPool_t mb`: the ring of blocks plus the
write, queued and run cursors and the availability counter. -/
structure Pool (n : Nat) where
  bf : Fin n → MpBuf n
  w : Fin n
  q : Fin n
  r : Fin n
  buffers_available : Nat

/-- Successor index in the ring: the `_bump` macro. -/
def bump {n : Nat} (i : Fin n) : Fin n :=
  if h : i.val < n - 1 then ⟨i.val + 1, Nat.add_lt_of_lt_sub h⟩
  else ⟨0, Nat.lt_of_le_of_lt (Nat.zero_le _) i.isLt⟩

/-- Predecessor index in the ring, as wired by the `mp_init_buffers` loop:
block 0's `pv` is the last block, block `i+1`'s `pv` is block `i`. -/
def pbump {n : Nat} (i : Fin n) : Fin n :=
  if i.val = 0 then
    ⟨n - 1, Nat.sub_lt (Nat.lt_of_le_of_lt (Nat.zero_le _) i.isLt) Nat.one_pos⟩
  else ⟨i.val - 1, Nat.lt_of_le_of_lt (Nat.sub_le _ _) i.isLt⟩

/-- Result of `memset(bf, 0, sizeof(mpBuf_t))` followed by restoring the ring
links: every payload field zero, state `MP_BUFFER_EMPTY`. -/
def zeroBuf {n : Nat} (nx pv : Fin n) : MpBuf n :=
  { nx := nx, pv := pv, buffer_state := .empty, move_type := 0, move_state := 0,
    bf_func := 0, cm_func := 0, move_time := 0,
    value_vector := fun _ => 0, flag_vector := fun _ => 0 }

/-- Field assignment `b->buffer_state = st`. -/
def setBufState {n : Nat} (b : MpBuf n) (st : BufferState) : MpBuf n :=
  { b with buffer_state := st }

/-- mod-256 increment of a `uint8_t` counter. -/
def u8inc (a : Nat) : Nat := (a + 1) % 256

/-- mod-256 decrement of a `uint8_t` counter. -/
def u8dec (a : Nat) : Nat := (a + 255) % 256

lemma bump_val_of_lt {n : Nat} {i : Fin n} (h : i.val < n - 1) :
    (bump i).val = i.val + 1 := by
  unfold bump; rw [dif_pos h]

lemma bump_val_of_last {n : Nat} {i : Fin n} (h : ¬ i.val < n - 1) :
    (bump i).val = 0 := by
  unfold bump; rw [dif_neg h]

lemma pbump_val_of_zero {n : Nat} {j : Fin n} (h : j.val = 0) :
    (pbump j).val = n - 1 := by
  unfold pbump; rw [if_pos h]

lemma pbump_val_of_pos {n : Nat} {j : Fin n} (h : ¬ j.val = 0) :
    (pbump j).val = j.val - 1 := by
  unfold pbump; rw [if_neg h]

/-- Block contents at initialization: zeroed, with the fixed ring links. -/
def initBuf {n : Nat} (i : Fin n) : MpBuf n := zeroBuf (bump i) (pbump i)

/-- Embeds `mp_init_buffers`: zero the pool, wire the ring links, point all
three cursors at block 0, set `buffers_available` to the capacity. -/
def mp_init_buffers (n : Nat) (hn : 0 < n) : Pool n :=
  { bf := initBuf, w := ⟨0, hn⟩, q := ⟨0, hn⟩, r := ⟨0, hn⟩,
    buffers_available := n }

/-- Embeds `mp_get_planner_buffers_available`. -/
def mp_get_planner_buffers_available {n : Nat} (s : Pool n) : Nat :=
  s.buffers_available

/-- Embeds `mp_get_write_buffer`: if the block at the write cursor is Empty,
clear it (`memset` with links saved and restored), mark it Loading, decrement
`buffers_available`, advance the write cursor to the block's `nx`, and return
the block; otherwise return none and leave the pool unchanged. -/
def mp_get_write_buffer {n : Nat} (s : Pool n) : Option (Fin n) × Pool n :=
  let wb := s.bf s.w
  if wb.buffer_state = .empty then
    (some s.w,
      { s with
        bf := Function.update s.bf s.w
          (setBufState (zeroBuf wb.nx wb.pv) .loading),
        buffers_available := u8dec s.buffers_available,
        w := wb.nx })
  else (none, s)

/-- Embeds `mp_unget_write_buffer`: move the write cursor back to its
predecessor link, mark that block Empty, increment `buffers_available`. -/
def mp_unget_write_buffer {n : Nat} (s : Pool n) : Pool n :=
  let w' := (s.bf s.w).pv
  { s with
    w := w',
    bf := Function.update s.bf w' (setBufState (s.bf w') .empty),
    buffers_available := u8inc s.buffers_available }

/-- Embeds `mp_commit_write_buffer`: set the block at the queued cursor to the
given move type with state Queued and move state `MOVE_NEW`, advance the
queued cursor along the block's `nx` link.  The `st_request_exec_move`
notification is external and changes no pool state. -/
def mp_commit_write_buffer {n : Nat} (s : Pool n) (move_type : Nat) : Pool n :=
  let qb := s.bf s.q
  { s with
    bf := Function.update s.bf s.q
      { qb with move_type := move_type, move_state := MOVE_NEW,
                buffer_state := .queued },
    q := qb.nx }

/-- Embeds `mp_get_run_buffer`: promote the block at the run cursor from
Queued or Pending to Running; then return it if it is Running (also when it
already was), else return none. -/
def mp_get_run_buffer {n : Nat} (s : Pool n) : Option (Fin n) × Pool n :=
  let s1 :=
    if (s.bf s.r).buffer_state = .queued ∨ (s.bf s.r).buffer_state = .pending
    then { s with
           bf := Function.update s.bf s.r (setBufState (s.bf s.r) .running) }
    else s
  if (s1.bf s1.r).buffer_state = .running then (some s1.r, s1) else (none, s1)

/-- Embeds `mp_clear_buffer`: zero the block, saving and restoring its ring
links. -/
def mp_clear_buffer {n : Nat} (bf : Fin n → MpBuf n) (i : Fin n) :
    Fin n → MpBuf n :=
  Function.update bf i (zeroBuf (bf i).nx (bf i).pv)

/-- Embeds `mp_free_run_buffer`: clear the block at the run cursor, advance
the run cursor along its `nx` link, promote the new run block from Queued to
Pending if it is Queued, increment `buffers_available`, and return whether the
write cursor now equals the run cursor. -/
def mp_free_run_buffer {n : Nat} (s : Pool n) : Bool × Pool n :=
  let bf1 := mp_clear_buffer s.bf s.r
  let r' := (s.bf s.r).nx
  let bf2 :=
    if (bf1 r').buffer_state = .queued
    then Function.update bf1 r' (setBufState (bf1 r') .pending)
    else bf1
  (decide (s.w = r'),
   { s with bf := bf2, r := r', buffers_available := u8inc s.buffers_available })

/-- Function-pointer identifier of the `_exec_command` callback. -/
def EXEC_COMMAND_FN : Nat := 1

/-- Function-pointer identifier of the `_exec_dwell` callback. -/
def EXEC_DWELL_FN : Nat := 2

/-- Embeds `mp_queue_command`: acquire a write buffer (on failure raise
`cm_hard_alarm STAT_BUFFER_FULL_FATAL`, reported as the first component, and
return); fill the acquired block's move type, callbacks and by-value copies of
the caller's per-axis `value` and `flag` arrays; commit as
`MOVE_TYPE_COMMAND`. -/
def mp_queue_command {n : Nat} (s : Pool n) (cm_exec : Nat)
    (value flag : Fin AXES → ℚ) : Option Nat × Pool n :=
  match mp_get_write_buffer s with
  | (none, s') => (some (cm_hard_alarm STAT_BUFFER_FULL_FATAL), s')
  | (some b, s') =>
    let blk := s'.bf b
    let blk :=
      { blk with move_type := MOVE_TYPE_COMMAND, bf_func := EXEC_COMMAND_FN,
                 cm_func := cm_exec,
                 value_vector := fun axis => value axis,
                 flag_vector := fun axis => flag axis }
    let s2 := { s' with bf := Function.update s'.bf b blk }
    (none, mp_commit_write_buffer s2 MOVE_TYPE_COMMAND)

/-- Record of one invocation of a stored canonical-machine callback: the
function-pointer identifier and the two vectors it is applied to. -/
structure CmInvocation where
  func : Nat
  values : Fin AXES → ℚ
  flags : Fin AXES → ℚ

/-- Embeds `mp_runtime_command`: invoke the stored `cm_func` with the block's
stored `value_vector` and `flag_vector` (returned as the observation), free
the run buffer, and report whether the pool emptied (which triggers
`cm_cycle_end`); the status result is `STAT_OK`. -/
def mp_runtime_command {n : Nat} (s : Pool n) (b : Fin n) :
    CmInvocation × Bool × Pool n × Nat :=
  let inv : CmInvocation :=
    ⟨(s.bf b).cm_func, (s.bf b).value_vector, (s.bf b).flag_vector⟩
  let fr := mp_free_run_buffer s
  (inv, fr.1, fr.2, STAT_OK)

/-- Embeds `mp_dwell`: acquire a write buffer (on failure return
`cm_hard_alarm STAT_BUFFER_FULL_FATAL`, with the raised alarm as the second
component); register the dwell callback, store the duration in seconds in
`gm.move_time`, set `MOVE_NEW`, commit as `MOVE_TYPE_DWELL`; return
`STAT_OK`. -/
def mp_dwell {n : Nat} (s : Pool n) (seconds : ℚ) :
    Nat × Option Nat × Pool n :=
  match mp_get_write_buffer s with
  | (none, s') =>
    (cm_hard_alarm STAT_BUFFER_FULL_FATAL, some STAT_BUFFER_FULL_FATAL, s')
  | (some b, s') =>
    let blk := s'.bf b
    let blk :=
      { blk with bf_func := EXEC_DWELL_FN, move_time := seconds,
                 move_state := MOVE_NEW }
    let s2 := { s' with bf := Function.update s'.bf b blk }
    (STAT_OK, none, mp_commit_write_buffer s2 MOVE_TYPE_DWELL)

/-! Position bridge: `mp_set_steps_to_runtime_position`.  The runtime motor
registers, the stepper-prep correction registers (`st_pre.mot[].corrected_steps`)
and the physical encoder registers (written through `en_set_encoder_steps`,
external to the shown source) are bundled in one per-motor register state. -/

/-- Per-motor step registers touched by the resync loop: runtime
target/position/commanded steps and following error, the stepper-prep pending
correction, and the physical encoder register. -/
structure StepState (M : Nat) where
  target_steps : Fin M → ℚ
  position_steps : Fin M → ℚ
  commanded_steps : Fin M → ℚ
  following_error : Fin M → ℚ
  corrected_steps : Fin M → ℚ
  encoder_steps : Fin M → ℚ

/-- Body of the resync loop for one motor `m`, given the inverse-kinematics
output `step_position`. -/
def resyncStep {M : Nat} (step_position : Fin M → ℚ) (st : StepState M)
    (m : Fin M) : StepState M :=
  { target_steps := Function.update st.target_steps m (step_position m),
    position_steps := Function.update st.position_steps m (step_position m),
    commanded_steps := Function.update st.commanded_steps m (step_position m),
    following_error := Function.update st.following_error m 0,
    corrected_steps := Function.update st.corrected_steps m 0,
    encoder_steps := Function.update st.encoder_steps m (step_position m) }

/-- Embeds `mp_set_steps_to_runtime_position`: run inverse kinematics
(`ik_kinematics`, an external collaborator passed as a parameter) on the full
runtime position vector, then loop over every motor writing the step
registers. -/
def mp_set_steps_to_runtime_position {M : Nat}
    (ik_kinematics : (Fin AXES → ℚ) → Fin M → ℚ)
    (mr_position : Fin AXES → ℚ) (st : StepState M) : StepState M :=
  let step_position := ik_kinematics mr_position
  (List.finRange M).foldl (resyncStep step_position) st

/-! Embedding of `src/avr/src/axis.c`. -/

/-- Number of motors, `MOTORS` from the firmware configuration. -/
def MOTORS : Nat := 4

/-- Static initializer of `motor_map`: every axis unmapped, reading `-1`. -/
def motor_map : Fin AXES → Int := fun _ => -1

/-- Embeds `axis_get_motor`: read the current mapping entry for the axis. -/
def axis_get_motor (mmap : Fin AXES → Int) (axis : Fin AXES) : Int :=
  mmap axis

/-- First motor whose configured axis equals `axis`, as found by the inner
`break` loop of `axis_map_motors`; `motor_get_axis` is the external motor
configuration. -/
def firstMotorFor (motor_get_axis : Fin MOTORS → Int) (axis : Fin AXES) :
    Option (Fin MOTORS) :=
  (List.finRange MOTORS).find? fun m => motor_get_axis m = (axis : Int)

/-- Embeds `axis_map_motors`: for each axis, write the first motor configured
for it into `motor_map`; an axis with no matching motor keeps its previous
entry. -/
def axis_map_motors (motor_get_axis : Fin MOTORS → Int)
    (mmap : Fin AXES → Int) : Fin AXES → Int :=
  fun axis =>
    match firstMotorFor motor_get_axis axis with
    | some m => (m : Int)
    | none => mmap axis

/-- Modelled from the spec: the `square` macro from `util.h` (not in the shown
source), squaring its argument. -/
def square (x : ℝ) : ℝ := x * x

/-- Axis index constants `AXIS_X` through `AXIS_C`. -/
def AXIS_X : Fin AXES := ⟨0, by decide⟩
/-- Axis index `AXIS_Y`. -/
def AXIS_Y : Fin AXES := ⟨1, by decide⟩
/-- Axis index `AXIS_Z`. -/
def AXIS_Z : Fin AXES := ⟨2, by decide⟩
/-- Axis index `AXIS_A`. -/
def AXIS_A : Fin AXES := ⟨3, by decide⟩
/-- Axis index `AXIS_B`. -/
def AXIS_B : Fin AXES := ⟨4, by decide⟩
/-- Axis index `AXIS_C`. -/
def AXIS_C : Fin AXES := ⟨5, by decide⟩

/-- Embeds `axis_get_vector_length`: the Euclidean distance over the six axes
X, Y, Z, A, B, C; C `float` arithmetic is modelled over the reals. -/
noncomputable def axis_get_vector_length (a b : Fin AXES → ℝ) : ℝ :=
  Real.sqrt (square (a AXIS_X - b AXIS_X) + square (a AXIS_Y - b AXIS_Y) +
             square (a AXIS_Z - b AXIS_Z) + square (a AXIS_A - b AXIS_A) +
             square (a AXIS_B - b AXIS_B) + square (a AXIS_C - b AXIS_C))

/-! Counting of in-use blocks, and the reachable pool states. -/

/-- Tests whether a lifecycle state is one of Loading, Queued, Pending or
Running (i.e. the block is in use and not Empty). -/
def isActive : BufferState → Bool
  | .loading => true
  | .queued => true
  | .pending => true
  | .running => true
  | .empty => false

/-- Weight of one block towards the in-use count. -/
def bufWeight {n : Nat} (b : MpBuf n) : Nat :=
  if isActive b.buffer_state then 1 else 0

/-- Number of blocks whose state is Loading, Queued, Pending or Running. -/
def activeCount {n : Nat} (s : Pool n) : Nat := ∑ i, bufWeight (s.bf i)

lemma weight_update {n : Nat} (f : Fin n → MpBuf n) (i : Fin n) (b : MpBuf n) :
    (fun j => bufWeight (Function.update f i b j))
      = Function.update (fun j => bufWeight (f j)) i (bufWeight b) := by
  funext j
  by_cases h : j = i
  · subst h; simp
  · simp [Function.update_noteq h]

lemma sum_weight_update {n : Nat} (f : Fin n → MpBuf n) (i : Fin n)
    (b : MpBuf n) :
    (∑ j, bufWeight (Function.update f i b j)) + bufWeight (f i)
      = (∑ j, bufWeight (f j)) + bufWeight b := by
  have h1 : (∑ j, bufWeight (Function.update f i b j))
      = bufWeight b + ∑ j ∈ Finset.univ.erase i, bufWeight (f j) := by
    rw [weight_update, Finset.sum_update_of_mem (Finset.mem_univ i),
      Finset.sdiff_singleton_eq_erase]
  have h2 : (∑ j, bufWeight (f j))
      = bufWeight (f i) + ∑ j ∈ Finset.univ.erase i, bufWeight (f j) :=
    (Finset.add_sum_erase _ _ (Finset.mem_univ i)).symm
  omega

lemma sum_weight_lt {n : Nat} (f : Fin n → MpBuf n) (i : Fin n)
    (h : bufWeight (f i) = 0) : (∑ j, bufWeight (f j)) < n := by
  have h2 : (∑ j, bufWeight (f j))
      = bufWeight (f i) + ∑ j ∈ Finset.univ.erase i, bufWeight (f j) :=
    (Finset.add_sum_erase _ _ (Finset.mem_univ i)).symm
  have h3 : (∑ j ∈ Finset.univ.erase i, bufWeight (f j))
      ≤ (Finset.univ.erase i).card • 1 :=
    Finset.sum_le_card_nsmul _ _ 1 fun x _ => by
      unfold bufWeight; split <;> omega
  have h4 : (Finset.univ.erase i).card = n - 1 := by
    rw [Finset.card_erase_of_mem (Finset.mem_univ i)]
    simp
  have h5 : 0 < n := i.pos
  simp only [smul_eq_mul, mul_one] at h3
  omega

/-- Pool states reachable from `mp_init_buffers` by the queue operations, each
taken under its contract precondition: `unget` only while the most recently
gotten block is still Loading, `commit` only with an uncommitted Loading block
at the queued cursor, `free` only while a run buffer is Running. -/
inductive Reachable (n : Nat) (hn : 0 < n) : Pool n → Prop where
  | init : Reachable n hn (mp_init_buffers n hn)
  | get {s : Pool n} : Reachable n hn s →
      Reachable n hn (mp_get_write_buffer s).2
  | unget {s : Pool n} : Reachable n hn s →
      (s.bf (s.bf s.w).pv).buffer_state = .loading →
      Reachable n hn (mp_unget_write_buffer s)
  | commit {s : Pool n} (move_type : Nat) : Reachable n hn s →
      (s.bf s.q).buffer_state = .loading →
      Reachable n hn (mp_commit_write_buffer s move_type)
  | getRun {s : Pool n} : Reachable n hn s →
      Reachable n hn (mp_get_run_buffer s).2
  | freeRun {s : Pool n} : Reachable n hn s →
      (s.bf s.r).buffer_state = .running →
      Reachable n hn (mp_free_run_buffer s).2

lemma get_write_eq_of_empty {n : Nat} (s : Pool n)
    (hw : (s.bf s.w).buffer_state = .empty) :
    mp_get_write_buffer s =
      (some s.w,
       { s with
         bf := Function.update s.bf s.w
           (setBufState (zeroBuf (s.bf s.w).nx (s.bf s.w).pv) .loading),
         buffers_available := u8dec s.buffers_available,
         w := (s.bf s.w).nx }) := by
  simp [mp_get_write_buffer, hw]

lemma get_write_eq_of_not_empty {n : Nat} (s : Pool n)
    (hw : (s.bf s.w).buffer_state ≠ .empty) :
    mp_get_write_buffer s = (none, s) := by
  simp [mp_get_write_buffer, hw]

lemma get_run_eq_of_fresh {n : Nat} (s : Pool n)
    (h : (s.bf s.r).buffer_state = .queued ∨
         (s.bf s.r).buffer_state = .pending) :
    mp_get_run_buffer s =
      (some s.r,
       { s with
         bf := Function.update s.bf s.r
           (setBufState (s.bf s.r) .running) }) := by
  simp only [mp_get_run_buffer, if_pos h]
  simp [setBufState]

lemma get_run_eq_of_running {n : Nat} (s : Pool n)
    (h : (s.bf s.r).buffer_state = .running) :
    mp_get_run_buffer s = (some s.r, s) := by
  have h' : ¬((s.bf s.r).buffer_state = .queued ∨
      (s.bf s.r).buffer_state = .pending) := by
    rw [h]; rintro (hc | hc) <;> exact BufferState.noConfusion hc
  simp only [mp_get_run_buffer, if_neg h', if_pos h]

lemma get_run_eq_of_idle {n : Nat} (s : Pool n)
    (hq : (s.bf s.r).buffer_state ≠ .queued)
    (hp : (s.bf s.r).buffer_state ≠ .pending)
    (hr : (s.bf s.r).buffer_state ≠ .running) :
    mp_get_run_buffer s = (none, s) := by
  have h' : ¬((s.bf s.r).buffer_state = .queued ∨
      (s.bf s.r).buffer_state = .pending) := by
    rintro (hc | hc) <;> [exact hq hc; exact hp hc]
  simp only [mp_get_run_buffer, if_neg h', if_neg hr]

lemma get_run_snd_eq {n : Nat} (s : Pool n) :
    (mp_get_run_buffer s).2 =
      if (s.bf s.r).buffer_state = .queued ∨
         (s.bf s.r).buffer_state = .pending
      then { s with
             bf := Function.update s.bf s.r
               (setBufState (s.bf s.r) .running) }
      else s := by
  by_cases h : (s.bf s.r).buffer_state = .queued ∨
      (s.bf s.r).buffer_state = .pending
  · rw [if_pos h, get_run_eq_of_fresh s h]
  · rw [if_neg h]
    simp only [mp_get_run_buffer, if_neg h]
    split <;> rfl

lemma free_run_snd_eq {n : Nat} (s : Pool n) :
    (mp_free_run_buffer s).2 =
      { s with
        bf :=
          if ((Function.update s.bf s.r
              (zeroBuf (s.bf s.r).nx (s.bf s.r).pv))
              ((s.bf s.r).nx)).buffer_state = .queued
          then Function.update
            (Function.update s.bf s.r (zeroBuf (s.bf s.r).nx (s.bf s.r).pv))
            ((s.bf s.r).nx)
            (setBufState ((Function.update s.bf s.r
                (zeroBuf (s.bf s.r).nx (s.bf s.r).pv)) ((s.bf s.r).nx))
              .pending)
          else Function.update s.bf s.r (zeroBuf (s.bf s.r).nx (s.bf s.r).pv),
        r := (s.bf s.r).nx,
        buffers_available := u8inc s.buffers_available } := rfl

lemma free_run_fst_eq {n : Nat} (s : Pool n) :
    (mp_free_run_buffer s).1 = decide (s.w = (s.bf s.r).nx) := rfl

lemma succ_lt_of_lt_pred {n k : Nat} (h : k < n - 1) : k + 1 < n := by
  omega

lemma succ_eq_of_not_lt_pred {n k : Nat} (hk : k < n) (h : ¬ k < n - 1) :
    k + 1 = n := by
  omega

lemma pred_eq_of_succ_eq {n k : Nat} (h : k + 1 = n) : n - 1 = k := by
  omega

lemma succ_eq_of_not_succ_lt {n k : Nat} (hk : k < n) (h : ¬ k + 1 < n) :
    k + 1 = n :=
  Nat.le_antisymm hk (Nat.le_of_not_lt h)

lemma u8dec_eq_sub {a : Nat} (h1 : 1 ≤ a) (h2 : a ≤ 255) :
    u8dec a = a - 1 := by
  unfold u8dec
  rw [show a + 255 = (a - 1) + 256 from by omega, Nat.add_mod_right,
    Nat.mod_eq_of_lt (by omega)]

lemma u8inc_eq_succ {a : Nat} (h : a < 255) : u8inc a = a + 1 := by
  unfold u8inc
  exact Nat.mod_eq_of_lt (by omega)

lemma u8dec_sub_succ {n k : Nat} (hk : k < n) (hcap : n ≤ 255) :
    u8dec (n - k) = n - (k + 1) := by
  rw [u8dec_eq_sub (by omega) (by omega)]
  omega

lemma u8inc_sub_succ {n k : Nat} (hk : k < n) (hcap : n ≤ 255) :
    u8inc (n - (k + 1)) = n - k := by
  rw [u8inc_eq_succ (by omega)]
  omega

lemma u8inc_u8dec {a : Nat} (h : a ≤ 255) : u8inc (u8dec a) = a := by
  by_cases h0 : a = 0
  · subst h0; rfl
  · rw [u8dec_eq_sub (Nat.pos_of_ne_zero h0) h, u8inc_eq_succ (by omega),
      Nat.sub_add_cancel (Nat.pos_of_ne_zero h0)]

lemma avail_step_get {a c n : Nat} (h : a + c = n) (hlt : c < n)
    (hcap : n ≤ 255) : u8dec a + (c + 1) = n := by
  rw [u8dec_eq_sub (by omega) (by omega)]
  omega

lemma avail_step_put {a c n : Nat} (h : a + (c + 1) = n) (hcap : n ≤ 255) :
    u8inc a + c = n := by
  rw [u8inc_eq_succ (by omega)]
  omega

lemma count_init (n : Nat) (hn : 0 < n) :
    activeCount (mp_init_buffers n hn) = 0 := by
  simp [mp_init_buffers, activeCount, bufWeight, initBuf, zeroBuf, isActive]

lemma count_get_write {n : Nat} (s : Pool n)
    (hw : (s.bf s.w).buffer_state = .empty) :
    activeCount (mp_get_write_buffer s).2 = activeCount s + 1
    ∧ (mp_get_write_buffer s).2.buffers_available = u8dec s.buffers_available
    ∧ activeCount s < n := by
  have hw0 : bufWeight (s.bf s.w) = 0 := by
    unfold bufWeight; rw [hw]; rfl
  have hlt := sum_weight_lt s.bf s.w hw0
  have hupd := sum_weight_update s.bf s.w
    (setBufState (zeroBuf (s.bf s.w).nx (s.bf s.w).pv) .loading)
  rw [hw0, show bufWeight (setBufState
      (zeroBuf (n := n) (s.bf s.w).nx (s.bf s.w).pv) .loading) = 1 from rfl]
    at hupd
  rw [get_write_eq_of_empty s hw]
  refine ⟨?_, rfl, hlt⟩
  show (∑ j, bufWeight (Function.update s.bf s.w
      (setBufState (zeroBuf (s.bf s.w).nx (s.bf s.w).pv) .loading) j))
    = (∑ j, bufWeight (s.bf j)) + 1
  simpa using hupd

lemma count_unget {n : Nat} (s : Pool n)
    (hload : (s.bf (s.bf s.w).pv).buffer_state = .loading) :
    activeCount (mp_unget_write_buffer s) + 1 = activeCount s
    ∧ (mp_unget_write_buffer s).buffers_available
        = u8inc s.buffers_available := by
  have hw1 : bufWeight (s.bf (s.bf s.w).pv) = 1 := by
    unfold bufWeight; rw [hload]; rfl
  have hupd := sum_weight_update s.bf (s.bf s.w).pv
    (setBufState (s.bf (s.bf s.w).pv) .empty)
  rw [hw1, show bufWeight (setBufState (s.bf (s.bf s.w).pv) .empty) = 0
    from rfl] at hupd
  refine ⟨?_, rfl⟩
  show (∑ j, bufWeight (Function.update s.bf (s.bf s.w).pv
      (setBufState (s.bf (s.bf s.w).pv) .empty) j)) + 1
    = ∑ j, bufWeight (s.bf j)
  simpa using hupd

lemma count_commit {n : Nat} (s : Pool n) (move_type : Nat)
    (hload : (s.bf s.q).buffer_state = .loading) :
    activeCount (mp_commit_write_buffer s move_type) = activeCount s
    ∧ (mp_commit_write_buffer s move_type).buffers_available
        = s.buffers_available := by
  have hw1 : bufWeight (s.bf s.q) = 1 := by
    unfold bufWeight; rw [hload]; rfl
  have hupd := sum_weight_update s.bf s.q
    { s.bf s.q with move_type := move_type, move_state := MOVE_NEW,
                    buffer_state := .queued }
  have hwq : bufWeight
      ({ s.bf s.q with move_type := move_type, move_state := MOVE_NEW,
                       buffer_state := .queued } : MpBuf n) = 1 := rfl
  rw [hw1, hwq] at hupd
  refine ⟨?_, rfl⟩
  show (∑ j, bufWeight (Function.update s.bf s.q
      { s.bf s.q with move_type := move_type, move_state := MOVE_NEW,
                      buffer_state := .queued } j))
    = ∑ j, bufWeight (s.bf j)
  exact Nat.add_right_cancel hupd

lemma count_get_run {n : Nat} (s : Pool n) :
    activeCount (mp_get_run_buffer s).2 = activeCount s
    ∧ (mp_get_run_buffer s).2.buffers_available = s.buffers_available := by
  rw [get_run_snd_eq]
  by_cases h : (s.bf s.r).buffer_state = .queued ∨
      (s.bf s.r).buffer_state = .pending
  · rw [if_pos h]
    have hw1 : bufWeight (s.bf s.r) = 1 := by
      unfold bufWeight
      rcases h with h | h <;> rw [h] <;> rfl
    have hupd := sum_weight_update s.bf s.r (setBufState (s.bf s.r) .running)
    rw [hw1, show bufWeight (setBufState (s.bf s.r) .running) = 1 from rfl]
      at hupd
    refine ⟨?_, rfl⟩
    show (∑ j, bufWeight (Function.update s.bf s.r
        (setBufState (s.bf s.r) .running) j)) = ∑ j, bufWeight (s.bf j)
    exact Nat.add_right_cancel hupd
  · rw [if_neg h]
    exact ⟨rfl, rfl⟩

lemma count_free_run {n : Nat} (s : Pool n)
    (hrun : (s.bf s.r).buffer_state = .running) :
    activeCount (mp_free_run_buffer s).2 + 1 = activeCount s
    ∧ (mp_free_run_buffer s).2.buffers_available
        = u8inc s.buffers_available := by
  have hw1 : bufWeight (s.bf s.r) = 1 := by
    unfold bufWeight; rw [hrun]; rfl
  have hupd1 := sum_weight_update s.bf s.r
    (zeroBuf (s.bf s.r).nx (s.bf s.r).pv)
  rw [hw1, show bufWeight (zeroBuf (n := n) (s.bf s.r).nx (s.bf s.r).pv) = 0
    from rfl] at hupd1
  rw [free_run_snd_eq]
  refine ⟨?_, rfl⟩
  by_cases hq : ((Function.update s.bf s.r
      (zeroBuf (s.bf s.r).nx (s.bf s.r).pv)) ((s.bf s.r).nx)).buffer_state
      = .queued
  · rw [if_pos hq]
    have hupd2 := sum_weight_update
      (Function.update s.bf s.r (zeroBuf (s.bf s.r).nx (s.bf s.r).pv))
      ((s.bf s.r).nx)
      (setBufState ((Function.update s.bf s.r
          (zeroBuf (s.bf s.r).nx (s.bf s.r).pv)) ((s.bf s.r).nx)) .pending)
    rw [show bufWeight ((Function.update s.bf s.r
        (zeroBuf (s.bf s.r).nx (s.bf s.r).pv)) ((s.bf s.r).nx)) = 1 by
          unfold bufWeight; rw [hq]; rfl,
      show bufWeight (setBufState ((Function.update s.bf s.r
        (zeroBuf (s.bf s.r).nx (s.bf s.r).pv)) ((s.bf s.r).nx)) .pending) = 1
        from rfl] at hupd2
    show (∑ j, bufWeight (Function.update
        (Function.update s.bf s.r (zeroBuf (s.bf s.r).nx (s.bf s.r).pv))
        ((s.bf s.r).nx)
        (setBufState ((Function.update s.bf s.r
          (zeroBuf (s.bf s.r).nx (s.bf s.r).pv)) ((s.bf s.r).nx)) .pending)
        j)) + 1
      = ∑ j, bufWeight (s.bf j)
    rw [Nat.add_right_cancel hupd2]
    simpa using hupd1
  · rw [if_neg hq]
    show (∑ j, bufWeight (Function.update s.bf s.r
        (zeroBuf (s.bf s.r).nx (s.bf s.r).pv) j)) + 1
      = ∑ j, bufWeight (s.bf j)
    simpa using hupd1

/-- C1 (claim theorem): for every pool state reachable from `mp_init_buffers`
by any sequence of `mp_get_write_buffer`, `mp_unget_write_buffer` (called only
between a successful get and its matching commit), `mp_commit_write_buffer`,
`mp_get_run_buffer` and `mp_free_run_buffer` respecting each operation's
precondition, the maintained counter `buffers_available` plus the number of
blocks whose state is Loading, Queued, Pending or Running equals the capacity
`PLANNER_BUFFER_POOL_SIZE` (the parameter `n`, which as a `uint8_t`-counted
capacity satisfies `n ≤ 255`). -/
theorem reachable_available_invariant (n : Nat) (hn : 0 < n) (hcap : n ≤ 255)
    (s : Pool n) (h : Reachable n hn s) :
    s.buffers_available + activeCount s = n := by
  induction h with
  | init =>
    rw [count_init n hn]
    rfl
  | @get s hs ih =>
    by_cases hw : (s.bf s.w).buffer_state = .empty
    · obtain ⟨h1, h2, h3⟩ := count_get_write s hw
      rw [h1, h2]
      exact avail_step_get ih h3 hcap
    · rw [get_write_eq_of_not_empty s hw]
      exact ih
  | @unget s hs hload ih =>
    obtain ⟨h1, h2⟩ := count_unget s hload
    rw [h2]
    exact avail_step_put (by rw [h1]; exact ih) hcap
  | @commit s move_type hs hload ih =>
    obtain ⟨h1, h2⟩ := count_commit s move_type hload
    rw [h1, h2]
    exact ih
  | @getRun s hs ih =>
    obtain ⟨h1, h2⟩ := count_get_run s
    rw [h1, h2]
    exact ih
  | @freeRun s hs hrun ih =>
    obtain ⟨h1, h2⟩ := count_free_run s hrun
    rw [h2]
    exact avail_step_put (by rw [h1]; exact ih) hcap

/-- C1 witness: the invariant instantiated after one get on a pool of
capacity 3. -/
theorem reachable_available_invariant_witness :
    (mp_get_write_buffer (mp_init_buffers 3 (Nat.succ_pos 2))).2.buffers_available
      + activeCount (mp_get_write_buffer (mp_init_buffers 3 (Nat.succ_pos 2))).2
      = 3 :=
  reachable_available_invariant 3 (Nat.succ_pos 2) (by omega) _
    (Reachable.get Reachable.init)

/-! Repeated acquisition of write buffers from a fresh pool. -/

/-- State transformer of one `mp_get_write_buffer` call. -/
def getWriteStep {n : Nat} (s : Pool n) : Pool n := (mp_get_write_buffer s).2

/-- Block contents after being acquired from a fresh pool: zeroed payload,
ring links intact, state Loading. -/
def loadedBuf {n : Nat} (i : Fin n) : MpBuf n := setBufState (initBuf i) .loading

/-- Ring contents after the first `k` blocks have been acquired. -/
def charBf {n : Nat} (k : Nat) : Fin n → MpBuf n :=
  fun i => if i.val < k then loadedBuf i else initBuf i

/-- Pool state after `k` successful write-buffer acquisitions from a fresh
pool: first `k` blocks Loading, write cursor at `k` (mod the capacity),
`k` fewer buffers available. -/
def charState (n : Nat) (hn : 0 < n) (k : Nat) : Pool n :=
  { bf := charBf k,
    w := ⟨k % n, Nat.mod_lt _ hn⟩,
    q := ⟨0, hn⟩, r := ⟨0, hn⟩,
    buffers_available := n - k }

lemma charBf_lt {n : Nat} {k : Nat} {i : Fin n} (h : i.val < k) :
    (charBf k i : MpBuf n) = loadedBuf i := by
  unfold charBf; rw [if_pos h]

lemma charBf_ge {n : Nat} {k : Nat} {i : Fin n} (h : ¬ i.val < k) :
    (charBf k i : MpBuf n) = initBuf i := by
  unfold charBf; rw [if_neg h]

lemma charState_bf (n : Nat) (hn : 0 < n) (k : Nat) :
    (charState n hn k).bf = charBf (n := n) k := rfl

lemma charState_av (n : Nat) (hn : 0 < n) (k : Nat) :
    (charState n hn k).buffers_available = n - k := rfl

lemma update_charBf_loading {n : Nat} {k : Nat} (hk : k < n) :
    Function.update (charBf k : Fin n → MpBuf n) ⟨k, hk⟩
      (loadedBuf ⟨k, hk⟩) = charBf (k + 1) := by
  funext i
  by_cases hik : i = (⟨k, hk⟩ : Fin n)
  · subst hik
    rw [Function.update_same, charBf_lt (Nat.lt_succ_self k)]
  · rw [Function.update_noteq hik]
    have hne : i.val ≠ k := fun hc => hik (Fin.ext hc)
    by_cases h2 : i.val < k
    · rw [charBf_lt h2, charBf_lt (Nat.lt_succ_of_lt h2)]
    · rw [charBf_ge h2, charBf_ge
        (fun hc => h2 ((Nat.lt_succ_iff_lt_or_eq.mp hc).resolve_right hne))]

lemma update_charBf_empty {n : Nat} {k : Nat} (hk : k < n) :
    Function.update (charBf (k + 1) : Fin n → MpBuf n) ⟨k, hk⟩
      (initBuf ⟨k, hk⟩) = charBf k := by
  funext i
  by_cases hik : i = (⟨k, hk⟩ : Fin n)
  · subst hik
    rw [Function.update_same, charBf_ge (Nat.lt_irrefl k)]
  · rw [Function.update_noteq hik]
    have hne : i.val ≠ k := fun hc => hik (Fin.ext hc)
    by_cases h2 : i.val < k
    · rw [charBf_lt (Nat.lt_succ_of_lt h2), charBf_lt h2]
    · rw [charBf_ge
        (fun hc => h2 ((Nat.lt_succ_iff_lt_or_eq.mp hc).resolve_right hne)),
        charBf_ge h2]

lemma charState_zero (n : Nat) (hn : 0 < n) :
    charState n hn 0 = mp_init_buffers n hn := by
  unfold charState mp_init_buffers charBf
  congr 1

lemma charState_step (n : Nat) (hn : 0 < n) (hcap : n ≤ 255) (k : Nat)
    (hk : k < n) :
    getWriteStep (charState n hn k) = charState n hn (k + 1) := by
  have hkmod : k % n = k := Nat.mod_eq_of_lt hk
  have hwidx : (charState n hn k).w = ⟨k, hk⟩ := Fin.ext hkmod
  have hwblk : (charState n hn k).bf (charState n hn k).w
      = initBuf ⟨k, hk⟩ := by
    rw [hwidx]
    exact charBf_ge (Nat.lt_irrefl k)
  have hempty : ((charState n hn k).bf (charState n hn k).w).buffer_state
      = .empty := by rw [hwblk]; rfl
  have hw : (initBuf (n := n) ⟨k, hk⟩).nx
      = ⟨(k + 1) % n, Nat.mod_lt _ hn⟩ := by
    apply Fin.ext
    show (bump (⟨k, hk⟩ : Fin n)).val = (k + 1) % n
    by_cases h : k < n - 1
    · rw [bump_val_of_lt h, Nat.mod_eq_of_lt (succ_lt_of_lt_pred h)]
    · rw [bump_val_of_last h, succ_eq_of_not_lt_pred hk h, Nat.mod_self]
  unfold getWriteStep
  rw [get_write_eq_of_empty _ hempty, hwblk]
  show ({ charState n hn k with
          bf := Function.update (charState n hn k).bf (charState n hn k).w
            (setBufState (zeroBuf (initBuf (n := n) ⟨k, hk⟩).nx
              (initBuf (n := n) ⟨k, hk⟩).pv) .loading),
          buffers_available := u8dec (charState n hn k).buffers_available,
          w := (initBuf (n := n) ⟨k, hk⟩).nx } : Pool n)
        = charState n hn (k + 1)
  rw [hwidx, charState_bf, charState_av,
    show setBufState (zeroBuf (initBuf (n := n) ⟨k, hk⟩).nx
      (initBuf (n := n) ⟨k, hk⟩).pv) .loading = loadedBuf ⟨k, hk⟩ from rfl,
    update_charBf_loading hk, hw, u8dec_sub_succ hk hcap]
  rfl

lemma getIter_eq (n : Nat) (hn : 0 < n) (hcap : n ≤ 255) (k : Nat)
    (hk : k ≤ n) :
    getWriteStep^[k] (mp_init_buffers n hn) = charState n hn k := by
  induction k with
  | zero => simp [charState_zero]
  | succ k ih =>
    rw [Function.iterate_succ_apply', ih (by omega),
      charState_step n hn hcap k (by omega)]

lemma getIter_result (n : Nat) (hn : 0 < n) (hcap : n ≤ 255) (k : Nat)
    (hk : k < n) :
    (mp_get_write_buffer (getWriteStep^[k] (mp_init_buffers n hn))).1
      = some ⟨k, hk⟩ := by
  rw [getIter_eq n hn hcap k (le_of_lt hk)]
  have hkmod : k % n = k := Nat.mod_eq_of_lt hk
  have hwidx : (charState n hn k).w = ⟨k, hk⟩ :=
    Fin.ext (by simp [charState, hkmod])
  have hwblk : (charState n hn k).bf (charState n hn k).w
      = initBuf ⟨k, hk⟩ := by
    rw [hwidx]
    simp [charState, charBf]
  have hempty : ((charState n hn k).bf (charState n hn k).w).buffer_state
      = .empty := by rw [hwblk]; rfl
  rw [get_write_eq_of_empty _ hempty]
  rw [hwidx]

lemma getIter_exhausted (n : Nat) (hn : 0 < n) (hcap : n ≤ 255) :
    (mp_get_write_buffer (getWriteStep^[n] (mp_init_buffers n hn))).1
      = none := by
  rw [getIter_eq n hn hcap n le_rfl]
  have hwidx : (charState n hn n).w = ⟨0, hn⟩ :=
    Fin.ext (by simp [charState])
  have hstate : ((charState n hn n).bf (charState n hn n).w).buffer_state
      = .loading := by
    rw [hwidx]
    simp only [charState, charBf]
    rw [if_pos (by simpa using hn)]
    rfl
  rw [get_write_eq_of_not_empty _ (by simp [hstate])]

/-- C2 (claim theorem): `mp_get_write_buffer` returns a handle exactly when
the block at the write cursor is Empty — in that case it zeroes the block's
payload while preserving its ring links, sets its state to Loading, decrements
`buffers_available`, advances the write cursor to its successor, and returns
that block; otherwise it returns none and changes nothing.  Consequently, from
a freshly initialized pool of capacity `n`, `n` successive calls without
committing return `n` distinct non-empty handles and the `(n+1)`-th call
returns none. -/
theorem get_write_buffer_spec (n : Nat) (hn : 0 < n) (hcap : n ≤ 255) :
    (∀ s : Pool n,
      ((s.bf s.w).buffer_state = .empty →
        mp_get_write_buffer s =
          (some s.w,
           { s with
             bf := Function.update s.bf s.w
               (setBufState (zeroBuf (s.bf s.w).nx (s.bf s.w).pv) .loading),
             buffers_available := u8dec s.buffers_available,
             w := (s.bf s.w).nx })) ∧
      ((s.bf s.w).buffer_state ≠ .empty →
        mp_get_write_buffer s = (none, s)))
    ∧ (∀ k : Nat, ∀ hk : k < n,
        (mp_get_write_buffer (getWriteStep^[k] (mp_init_buffers n hn))).1
          = some ⟨k, hk⟩)
    ∧ (mp_get_write_buffer (getWriteStep^[n] (mp_init_buffers n hn))).1 = none
    ∧ (∀ j k : Nat, j < n → k < n → j ≠ k →
        (mp_get_write_buffer (getWriteStep^[j] (mp_init_buffers n hn))).1
          ≠ (mp_get_write_buffer (getWriteStep^[k] (mp_init_buffers n hn))).1)
    ∧ (∀ k : Nat, k < n →
        (mp_get_write_buffer (getWriteStep^[k] (mp_init_buffers n hn))).1
          ≠ none) := by
  refine ⟨fun s => ⟨fun he => get_write_eq_of_empty s he,
      fun he => get_write_eq_of_not_empty s he⟩,
    fun k hk => getIter_result n hn hcap k hk,
    getIter_exhausted n hn hcap,
    fun j k hj hk hne => ?_, fun k hk => ?_⟩
  · rw [getIter_result n hn hcap j hj, getIter_result n hn hcap k hk]
    intro hc
    exact hne (Fin.mk.injEq _ _ _ _ ▸ (Option.some.injEq _ _ ▸ hc))
  · rw [getIter_result n hn hcap k hk]
    exact Option.some_ne_none _

/-- C2 witness: on a fresh pool of capacity 3, the third call returns block 2
(so the hypotheses `0 < 3`, `3 ≤ 255`, `2 < 3` are all dischargeable). -/
theorem get_write_buffer_spec_witness :
    (mp_get_write_buffer
      (getWriteStep^[2] (mp_init_buffers 3 (Nat.succ_pos 2)))).1
      = some ⟨2, by omega⟩ :=
  (get_write_buffer_spec 3 (Nat.succ_pos 2) (by omega)).2.1 2 (by omega)

/-! Demonstration states used to instantiate the per-operation contracts. -/

/-- Pool of capacity 4 after two get/commit pairs: blocks 0 and 1 Queued,
write and queued cursors at 2, run cursor at 0. -/
def demoQueued4 : Pool 4 :=
  mp_commit_write_buffer
    (getWriteStep
      (mp_commit_write_buffer
        (getWriteStep (mp_init_buffers 4 (Nat.succ_pos 3)))
        MOVE_TYPE_DWELL))
    MOVE_TYPE_DWELL

/-- The same pool after `mp_get_run_buffer`: block 0 Running, block 1 still
Queued behind it. -/
def demoPool4 : Pool 4 := (mp_get_run_buffer demoQueued4).2

/-- C3 (claim theorem): `mp_free_run_buffer` sets the block at the run cursor
to Empty while preserving its ring links, advances the run cursor to its
successor, promotes that successor from Queued to Pending exactly when its
state was Queued, increments `buffers_available`, and returns true if and only
if the write cursor equals the new run cursor; in the concrete drain scenario
with a further Queued block behind the freed Running one it returns false and
promotes that block. -/
theorem free_run_buffer_spec (n : Nat) :
    (∀ s : Pool n, (s.bf s.r).buffer_state = .running →
      ((mp_free_run_buffer s).1 = true ↔ s.w = (s.bf s.r).nx)
      ∧ (mp_free_run_buffer s).2.r = (s.bf s.r).nx
      ∧ (mp_free_run_buffer s).2.buffers_available
          = u8inc s.buffers_available
      ∧ ((mp_free_run_buffer s).2.bf s.r).buffer_state = .empty
      ∧ ((mp_free_run_buffer s).2.bf s.r).nx = (s.bf s.r).nx
      ∧ ((mp_free_run_buffer s).2.bf s.r).pv = (s.bf s.r).pv
      ∧ (s.r ≠ (s.bf s.r).nx →
          (mp_free_run_buffer s).2.bf ((s.bf s.r).nx)
            = (if (s.bf ((s.bf s.r).nx)).buffer_state = .queued
               then setBufState (s.bf ((s.bf s.r).nx)) .pending
               else s.bf ((s.bf s.r).nx)))
      ∧ (mp_free_run_buffer s).2.w = s.w
      ∧ (mp_free_run_buffer s).2.q = s.q
      ∧ (∀ i : Fin n, i ≠ s.r → i ≠ (s.bf s.r).nx →
          (mp_free_run_buffer s).2.bf i = s.bf i))
    ∧ ((demoPool4.bf ⟨1, by omega⟩).buffer_state = .queued
       ∧ (mp_free_run_buffer demoPool4).1 = false
       ∧ ((mp_free_run_buffer demoPool4).2.bf ⟨1, by omega⟩).buffer_state
           = .pending) := by
  constructor
  · intro s hrun
    have hclr : (Function.update s.bf s.r
        (zeroBuf (s.bf s.r).nx (s.bf s.r).pv)) s.r
        = zeroBuf (s.bf s.r).nx (s.bf s.r).pv := Function.update_same _ _ _
    rw [free_run_snd_eq, free_run_fst_eq]
    by_cases hq : ((Function.update s.bf s.r
        (zeroBuf (s.bf s.r).nx (s.bf s.r).pv)) ((s.bf s.r).nx)).buffer_state
        = .queued
    · rw [if_pos hq]
      dsimp only
      have hner : (s.bf s.r).nx ≠ s.r := by
        intro hc
        rw [hc, Function.update_same] at hq
        exact BufferState.noConfusion hq
      have hbfr : (Function.update s.bf s.r
          (zeroBuf (s.bf s.r).nx (s.bf s.r).pv)) ((s.bf s.r).nx)
          = s.bf ((s.bf s.r).nx) := Function.update_noteq hner _ _
      refine ⟨by simp, rfl, rfl, ?_, ?_, ?_, ?_, rfl, rfl, ?_⟩
      · rw [Function.update_noteq (Ne.symm hner), hclr]; rfl
      · rw [Function.update_noteq (Ne.symm hner), hclr]; rfl
      · rw [Function.update_noteq (Ne.symm hner), hclr]; rfl
      · intro _
        rw [Function.update_same, hbfr]
        rw [hbfr] at hq
        rw [if_pos hq]
      · intro i hir hir2
        rw [Function.update_noteq hir2, Function.update_noteq hir]
    · rw [if_neg hq]
      dsimp only
      refine ⟨by simp, rfl, rfl, ?_, ?_, ?_, ?_, rfl, rfl, ?_⟩
      · rw [hclr]; rfl
      · rw [hclr]; rfl
      · rw [hclr]; rfl
      · intro hner2
        have hbfr : (Function.update s.bf s.r
            (zeroBuf (s.bf s.r).nx (s.bf s.r).pv)) ((s.bf s.r).nx)
            = s.bf ((s.bf s.r).nx) :=
          Function.update_noteq (fun hc => hner2 hc.symm) _ _
        rw [hbfr] at hq
        rw [hbfr, if_neg hq]
      · intro i hir hir2
        rw [Function.update_noteq hir]
  · exact ⟨by decide, by decide, by decide⟩

/-- C3 witness: the free on the demo pool (block 0 Running) increments the
availability counter; all hypotheses discharged at the concrete state. -/
theorem free_run_buffer_spec_witness :
    (mp_free_run_buffer demoPool4).2.buffers_available
      = u8inc demoPool4.buffers_available :=
  (((free_run_buffer_spec 4).1 demoPool4 (by decide)).2.2).1

/-- C4 (claim theorem): `mp_get_run_buffer` promotes the block at the run
cursor to Running and returns it when its state is Queued or Pending; when it
is already Running it returns the same block unchanged, so two consecutive
calls with no intervening free return the same block, both times Running; when
the block is in none of those states it returns none and modifies nothing. -/
theorem get_run_buffer_spec (n : Nat) :
    (∀ s : Pool n,
      (((s.bf s.r).buffer_state = .queued ∨
        (s.bf s.r).buffer_state = .pending) →
        mp_get_run_buffer s =
          (some s.r,
           { s with
             bf := Function.update s.bf s.r
               (setBufState (s.bf s.r) .running) }))
      ∧ ((s.bf s.r).buffer_state = .running →
          mp_get_run_buffer s = (some s.r, s))
      ∧ (((s.bf s.r).buffer_state ≠ .queued ∧
          (s.bf s.r).buffer_state ≠ .pending ∧
          (s.bf s.r).buffer_state ≠ .running) →
          mp_get_run_buffer s = (none, s)))
    ∧ (∀ s : Pool n, ∀ b : Fin n,
        (mp_get_run_buffer s).1 = some b →
        ((mp_get_run_buffer s).2.bf b).buffer_state = .running
        ∧ mp_get_run_buffer (mp_get_run_buffer s).2
            = (some b, (mp_get_run_buffer s).2)) := by
  constructor
  · intro s
    refine ⟨fun h => get_run_eq_of_fresh s h,
      fun h => get_run_eq_of_running s h,
      fun h => get_run_eq_of_idle s h.1 h.2.1 h.2.2⟩
  · intro s b hsome
    rcases hst : (s.bf s.r).buffer_state with h | h | h | h | h
    · rw [get_run_eq_of_idle s (by simp [hst]) (by simp [hst])
        (by simp [hst])] at hsome ⊢
      exact Option.noConfusion hsome
    · rw [get_run_eq_of_idle s (by simp [hst]) (by simp [hst])
        (by simp [hst])] at hsome ⊢
      exact Option.noConfusion hsome
    · rw [get_run_eq_of_fresh s (Or.inl hst)] at hsome ⊢
      have hb : b = s.r := by
        simpa using hsome.symm
      have hrun2 : ((Function.update s.bf s.r
          (setBufState (s.bf s.r) .running)) s.r).buffer_state = .running := by
        rw [Function.update_same]; rfl
      subst hb
      refine ⟨by simpa using hrun2, ?_⟩
      rw [get_run_eq_of_running _ (by simpa using hrun2)]
    · rw [get_run_eq_of_fresh s (Or.inr hst)] at hsome ⊢
      have hb : b = s.r := by
        simpa using hsome.symm
      have hrun2 : ((Function.update s.bf s.r
          (setBufState (s.bf s.r) .running)) s.r).buffer_state = .running := by
        rw [Function.update_same]; rfl
      subst hb
      refine ⟨by simpa using hrun2, ?_⟩
      rw [get_run_eq_of_running _ (by simpa using hrun2)]
    · rw [get_run_eq_of_running s hst] at hsome ⊢
      have hb : b = s.r := by
        simpa using hsome.symm
      subst hb
      exact ⟨hst, get_run_eq_of_running s hst⟩


/-- C4 witness: first acquisition on the demo pool with block 0 Queued. -/
theorem get_run_buffer_spec_witness :
    mp_get_run_buffer demoQueued4 =
      (some demoQueued4.r,
       { demoQueued4 with
         bf := Function.update demoQueued4.bf demoQueued4.r
           (setBufState (demoQueued4.bf demoQueued4.r) .running) }) :=
  (((get_run_buffer_spec 4).1 demoQueued4).1) (Or.inl (by decide))

/-! Rollback of write-buffer acquisitions. -/

/-- Well-formed ring links: every block's `nx`/`pv` pointers are the ones
wired by `mp_init_buffers` (they are fixed at construction and only ever
saved and restored). -/
def linksWF {n : Nat} (s : Pool n) : Prop :=
  ∀ i : Fin n, (s.bf i).nx = bump i ∧ (s.bf i).pv = pbump i

lemma pbump_bump {n : Nat} (i : Fin n) : pbump (bump i) = i := by
  have hi := i.isLt
  apply Fin.ext
  by_cases h : i.val < n - 1
  · rw [pbump_val_of_pos (by rw [bump_val_of_lt h]; exact Nat.succ_ne_zero _),
      bump_val_of_lt h]
    exact Nat.succ_sub_one _
  · rw [pbump_val_of_zero (bump_val_of_last h)]
    exact pred_eq_of_succ_eq (succ_eq_of_not_lt_pred hi h)

lemma unget_getWrite {n : Nat} (s : Pool n) (hl : linksWF s)
    (he : (s.bf s.w).buffer_state = .empty)
    (ha : s.buffers_available ≤ 255) :
    (mp_unget_write_buffer (getWriteStep s)).w = s.w
    ∧ ((mp_unget_write_buffer (getWriteStep s)).bf s.w).buffer_state
        = (s.bf s.w).buffer_state
    ∧ (mp_unget_write_buffer (getWriteStep s)).buffers_available
        = s.buffers_available := by
  have hnx : (s.bf s.w).nx = bump s.w := (hl s.w).1
  have hpv : (s.bf s.w).pv = pbump s.w := (hl s.w).2
  have hstep : getWriteStep s =
      { s with
        bf := Function.update s.bf s.w
          (setBufState (zeroBuf (s.bf s.w).nx (s.bf s.w).pv) .loading),
        buffers_available := u8dec s.buffers_available,
        w := (s.bf s.w).nx } := by
    unfold getWriteStep
    rw [get_write_eq_of_empty s he]
  have hpv' : ((getWriteStep s).bf (getWriteStep s).w).pv = s.w := by
    rw [hstep]
    dsimp only
    by_cases hww : (s.bf s.w).nx = s.w
    · rw [hww, Function.update_same]
      show (s.bf s.w).pv = s.w
      rw [hpv]
      have hsw : bump s.w = s.w := by rw [← hnx, hww]
      have hpb : pbump (bump s.w) = s.w := pbump_bump s.w
      rw [hsw] at hpb
      exact hpb
    · rw [Function.update_noteq hww]
      rw [(hl ((s.bf s.w).nx)).2, hnx, pbump_bump]
  constructor
  · show ((getWriteStep s).bf (getWriteStep s).w).pv = s.w
    exact hpv'
  constructor
  · unfold mp_unget_write_buffer
    dsimp only
    rw [hpv', Function.update_same]
    rw [he]
    rfl
  · show u8inc (getWriteStep s).buffers_available = s.buffers_available
    rw [hstep]
    exact u8inc_u8dec ha

lemma unget_charState (n : Nat) (hn : 0 < n) (hcap : n ≤ 255) (k : Nat)
    (hk : k < n) :
    mp_unget_write_buffer (charState n hn (k + 1)) = charState n hn k := by
  have hkmod : k % n = k := Nat.mod_eq_of_lt hk
  have hpvw : ((charState n hn (k + 1)).bf (charState n hn (k + 1)).w).pv
      = ⟨k, hk⟩ := by
    by_cases hlt : k + 1 < n
    · have hwi : (charState n hn (k + 1)).w = ⟨k + 1, hlt⟩ :=
        Fin.ext (Nat.mod_eq_of_lt hlt)
      rw [hwi, charState_bf, charBf_ge (Nat.lt_irrefl (k + 1))]
      apply Fin.ext
      show (pbump (⟨k + 1, hlt⟩ : Fin n)).val = k
      rw [pbump_val_of_pos (Nat.succ_ne_zero k)]
      exact Nat.succ_sub_one k
    · have hkn : k + 1 = n := succ_eq_of_not_succ_lt hk hlt
      have hwi : (charState n hn (k + 1)).w = ⟨0, hn⟩ := by
        apply Fin.ext
        show (k + 1) % n = 0
        rw [hkn, Nat.mod_self]
      rw [hwi, charState_bf, charBf_lt (Nat.succ_pos k)]
      apply Fin.ext
      show (pbump (⟨0, hn⟩ : Fin n)).val = k
      rw [pbump_val_of_zero rfl]
      exact pred_eq_of_succ_eq hkn
  have hblk : (charState n hn (k + 1)).bf ⟨k, hk⟩ = loadedBuf ⟨k, hk⟩ :=
    charBf_lt (Nat.lt_succ_self k)
  unfold mp_unget_write_buffer
  rw [hpvw]
  dsimp only
  rw [hblk, charState_bf, charState_av,
    show setBufState (loadedBuf (n := n) ⟨k, hk⟩) .empty = initBuf ⟨k, hk⟩
      from rfl,
    update_charBf_empty hk, u8inc_sub_succ hk hcap,
    show (⟨k, hk⟩ : Fin n) = ⟨k % n, Nat.mod_lt _ hn⟩ from Fin.ext hkmod.symm]
  rfl

/-- C5 (claim theorem): after a successful `mp_get_write_buffer` (block at the
write cursor Empty, well-formed ring links, `uint8_t` counter in range),
`mp_unget_write_buffer` moves the write cursor back to its predecessor, marks
that block Empty and increments `buffers_available`, restoring the write
cursor, that block's state and `buffers_available` exactly to their values
before the get; and a sequence of `k` successful gets from a fresh pool is
reversed LIFO by `k` ungets, restoring the entire initial pool state. -/
theorem unget_write_buffer_spec (n : Nat) (hn : 0 < n) (hcap : n ≤ 255) :
    (∀ s : Pool n, linksWF s → (s.bf s.w).buffer_state = .empty →
      s.buffers_available ≤ 255 →
      (mp_unget_write_buffer (getWriteStep s)).w = s.w
      ∧ ((mp_unget_write_buffer (getWriteStep s)).bf s.w).buffer_state
          = (s.bf s.w).buffer_state
      ∧ (mp_unget_write_buffer (getWriteStep s)).buffers_available
          = s.buffers_available)
    ∧ (∀ k : Nat, k ≤ n →
        mp_unget_write_buffer^[k] (getWriteStep^[k] (mp_init_buffers n hn))
          = mp_init_buffers n hn) := by
  constructor
  · exact fun s hl he ha => unget_getWrite s hl he ha
  · intro k hk
    rw [getIter_eq n hn hcap k hk]
    induction k with
    | zero => simpa using charState_zero n hn
    | succ k ih =>
      rw [Function.iterate_succ_apply, unget_charState n hn hcap k (by omega)]
      exact ih (by omega)

/-- C5 witness: three gets on a fresh pool of capacity 3 are reversed by three
ungets. -/
theorem unget_write_buffer_spec_witness :
    mp_unget_write_buffer^[3]
      (getWriteStep^[3] (mp_init_buffers 3 (Nat.succ_pos 2)))
      = mp_init_buffers 3 (Nat.succ_pos 2) :=
  (unget_write_buffer_spec 3 (Nat.succ_pos 2) (by omega)).2 3 (by omega)

/-! Continuation dispatch: copy semantics and exhaustion handling. -/

/-- Example per-axis values `[1,2,3,4,5,6]`. -/
def demoValues : Fin AXES → ℚ := fun i => (i.val + 1 : ℚ)

/-- Example per-axis flags `[1,0,1,0,1,0]`. -/
def demoFlags : Fin AXES → ℚ := fun i => if i.val % 2 = 0 then 1 else 0

/-- C6 (claim theorem): `mp_queue_command` stores by-value copies of the
caller's per-axis value and flag arrays into the committed block, so the
stored exec callback later invoked by the consumer-side `mp_runtime_command`
observes exactly the value and flag vectors captured at queue time — in the
pure embedding the caller's arrays are not referenced after the call, so any
mutation of them after `mp_queue_command` returns cannot change the stored
copies. -/
theorem queue_command_copy_semantics (n : Nat) (s : Pool n) (cm_exec : Nat)
    (value flag : Fin AXES → ℚ)
    (hqw : s.q = s.w) (he : (s.bf s.w).buffer_state = .empty) :
    ((mp_queue_command s cm_exec value flag).2.bf s.w).cm_func = cm_exec
    ∧ ((mp_queue_command s cm_exec value flag).2.bf s.w).value_vector = value
    ∧ ((mp_queue_command s cm_exec value flag).2.bf s.w).flag_vector = flag
    ∧ ((mp_queue_command s cm_exec value flag).2.bf s.w).buffer_state = .queued
    ∧ (mp_runtime_command (mp_queue_command s cm_exec value flag).2 s.w).1
        = ⟨cm_exec, value, flag⟩ := by
  have hget := get_write_eq_of_empty s he
  have hfinal : (mp_queue_command s cm_exec value flag).2.bf s.w
      = { nx := (s.bf s.w).nx, pv := (s.bf s.w).pv,
          buffer_state := .queued, move_type := MOVE_TYPE_COMMAND,
          move_state := MOVE_NEW, bf_func := EXEC_COMMAND_FN,
          cm_func := cm_exec, move_time := 0,
          value_vector := fun axis => value axis,
          flag_vector := fun axis => flag axis } := by
    simp only [mp_queue_command, hget]
    simp only [mp_commit_write_buffer]
    rw [hqw]
    rw [Function.update_same, Function.update_same, Function.update_same]
    rfl
  refine ⟨by rw [hfinal], by rw [hfinal], by rw [hfinal], by rw [hfinal], ?_⟩
  show (⟨((mp_queue_command s cm_exec value flag).2.bf s.w).cm_func,
        ((mp_queue_command s cm_exec value flag).2.bf s.w).value_vector,
        ((mp_queue_command s cm_exec value flag).2.bf s.w).flag_vector⟩
      : CmInvocation) = ⟨cm_exec, value, flag⟩
  rw [hfinal]

/-- C6 witness: queueing the example vectors on a fresh pool of capacity 2;
the stored callback observes exactly the captured values and flags. -/
theorem queue_command_copy_semantics_witness :
    (mp_runtime_command
      (mp_queue_command (mp_init_buffers 2 (Nat.succ_pos 1)) 9
        demoValues demoFlags).2
      (mp_init_buffers 2 (Nat.succ_pos 1)).w).1
      = ⟨9, demoValues, demoFlags⟩ :=
  (queue_command_copy_semantics 2 (mp_init_buffers 2 (Nat.succ_pos 1)) 9
    demoValues demoFlags rfl rfl).2.2.2.2

/-- C7 (claim theorem): when `mp_get_write_buffer` fails (block at the write
cursor not Empty), both `mp_queue_command` and `mp_dwell` raise a fatal alarm
carrying `STAT_BUFFER_FULL_FATAL` and return without retrying and without
committing anything — the pool is returned exactly as it was — and `mp_dwell`
returns the alarm's status. -/
theorem exhaustion_fatal_alarm (n : Nat) (s : Pool n) (cm_exec : Nat)
    (value flag : Fin AXES → ℚ) (seconds : ℚ)
    (hfull : (s.bf s.w).buffer_state ≠ .empty) :
    mp_queue_command s cm_exec value flag = (some STAT_BUFFER_FULL_FATAL, s)
    ∧ mp_dwell s seconds
        = (STAT_BUFFER_FULL_FATAL, some STAT_BUFFER_FULL_FATAL, s) := by
  have hget := get_write_eq_of_not_empty s hfull
  constructor
  · simp only [mp_queue_command, hget, cm_hard_alarm]
  · simp only [mp_dwell, hget, cm_hard_alarm]

/-- Pool of capacity 1 exhausted by a single uncommitted get. -/
def fullPool1 : Pool 1 := getWriteStep (mp_init_buffers 1 Nat.one_pos)

/-- C7 witness: on the exhausted one-block pool, queueing a command raises the
fatal alarm and leaves the pool untouched. -/
theorem exhaustion_fatal_alarm_witness :
    mp_queue_command fullPool1 9 demoValues demoFlags
      = (some STAT_BUFFER_FULL_FATAL, fullPool1) :=
  (exhaustion_fatal_alarm 1 fullPool1 9 demoValues demoFlags 5
    (by decide)).1

/-! Position bridge: the resync loop. -/

lemma resync_foldl_frame {M : Nat} (sp : Fin M → ℚ) (l : List (Fin M))
    (st : StepState M) (m : Fin M) (hm : m ∉ l) :
    (l.foldl (resyncStep sp) st).target_steps m = st.target_steps m
    ∧ (l.foldl (resyncStep sp) st).position_steps m = st.position_steps m
    ∧ (l.foldl (resyncStep sp) st).commanded_steps m = st.commanded_steps m
    ∧ (l.foldl (resyncStep sp) st).following_error m = st.following_error m
    ∧ (l.foldl (resyncStep sp) st).corrected_steps m = st.corrected_steps m
    ∧ (l.foldl (resyncStep sp) st).encoder_steps m = st.encoder_steps m := by
  induction l generalizing st with
  | nil => exact ⟨rfl, rfl, rfl, rfl, rfl, rfl⟩
  | cons x xs ih =>
    have hmx : m ≠ x := fun hc => hm (by simp [hc])
    have hmxs : m ∉ xs := fun hc => hm (List.mem_cons_of_mem _ hc)
    rw [List.foldl_cons]
    have hstep : ∀ g : StepState M → Fin M → ℚ,
        True := fun _ => trivial
    obtain ⟨h1, h2, h3, h4, h5, h6⟩ := ih (resyncStep sp st x) hmxs
    refine ⟨?_, ?_, ?_, ?_, ?_, ?_⟩
    · rw [h1]; exact Function.update_noteq hmx _ _
    · rw [h2]; exact Function.update_noteq hmx _ _
    · rw [h3]; exact Function.update_noteq hmx _ _
    · rw [h4]; exact Function.update_noteq hmx _ _
    · rw [h5]; exact Function.update_noteq hmx _ _
    · rw [h6]; exact Function.update_noteq hmx _ _

lemma resync_foldl_mem {M : Nat} (sp : Fin M → ℚ) (l : List (Fin M))
    (st : StepState M) (m : Fin M) (hm : m ∈ l) :
    (l.foldl (resyncStep sp) st).target_steps m = sp m
    ∧ (l.foldl (resyncStep sp) st).position_steps m = sp m
    ∧ (l.foldl (resyncStep sp) st).commanded_steps m = sp m
    ∧ (l.foldl (resyncStep sp) st).following_error m = 0
    ∧ (l.foldl (resyncStep sp) st).corrected_steps m = 0
    ∧ (l.foldl (resyncStep sp) st).encoder_steps m = sp m := by
  induction l generalizing st with
  | nil => cases hm
  | cons x xs ih =>
    rw [List.foldl_cons]
    by_cases hmem : m ∈ xs
    · exact ih _ hmem
    · have hmx : m = x := by
        rcases List.mem_cons.mp hm with h | h
        · exact h
        · exact absurd h hmem
      subst hmx
      obtain ⟨h1, h2, h3, h4, h5, h6⟩ :=
        resync_foldl_frame sp xs (resyncStep sp st m) m hmem
      refine ⟨?_, ?_, ?_, ?_, ?_, ?_⟩
      · rw [h1]; exact Function.update_same _ _ _
      · rw [h2]; exact Function.update_same _ _ _
      · rw [h3]; exact Function.update_same _ _ _
      · rw [h4]; exact Function.update_same _ _ _
      · rw [h5]; exact Function.update_same _ _ _
      · rw [h6]; exact Function.update_same _ _ _

/-- C8 (claim theorem): after `mp_set_steps_to_runtime_position`, for every
motor the target, position and commanded step registers all equal that motor's
component of the inverse-kinematics image of the full runtime position vector,
the same step count has been written to the motor's physical encoder register,
and the motor's following error and pending step correction equal exactly 0,
regardless of their values before the call. -/
theorem set_steps_to_runtime_position_spec {M : Nat}
    (ik_kinematics : (Fin AXES → ℚ) → Fin M → ℚ)
    (mr_position : Fin AXES → ℚ) (st : StepState M) (motor : Fin M) :
    (mp_set_steps_to_runtime_position ik_kinematics mr_position st).target_steps
        motor = ik_kinematics mr_position motor
    ∧ (mp_set_steps_to_runtime_position ik_kinematics mr_position
        st).position_steps motor = ik_kinematics mr_position motor
    ∧ (mp_set_steps_to_runtime_position ik_kinematics mr_position
        st).commanded_steps motor = ik_kinematics mr_position motor
    ∧ (mp_set_steps_to_runtime_position ik_kinematics mr_position
        st).following_error motor = 0
    ∧ (mp_set_steps_to_runtime_position ik_kinematics mr_position
        st).corrected_steps motor = 0
    ∧ (mp_set_steps_to_runtime_position ik_kinematics mr_position
        st).encoder_steps motor = ik_kinematics mr_position motor := by
  unfold mp_set_steps_to_runtime_position
  exact resync_foldl_mem _ _ st motor (List.mem_finRange motor)

/-! Euclidean vector length (`axis_get_vector_length`). -/

/-- View of a per-axis position vector as a point of the Euclidean space over
the six axes. -/
noncomputable def toEuclid (a : Fin AXES → ℝ) : EuclideanSpace ℝ (Fin AXES) :=
  (WithLp.equiv 2 (Fin AXES → ℝ)).symm a

lemma toEuclid_dist (a b : Fin AXES → ℝ) :
    dist (toEuclid a) (toEuclid b)
      = Real.sqrt (∑ i, (a i - b i) ^ 2) := by
  rw [EuclideanSpace.dist_eq]
  congr 1
  refine Finset.sum_congr rfl fun i _ => ?_
  rw [toEuclid, toEuclid, WithLp.equiv_symm_pi_apply,
    WithLp.equiv_symm_pi_apply, Real.dist_eq, sq_abs]

lemma veclen_eq_dist (a b : Fin AXES → ℝ) :
    axis_get_vector_length a b = dist (toEuclid a) (toEuclid b) := by
  rw [toEuclid_dist]
  unfold axis_get_vector_length square
  congr 1
  have hsum : (∑ i : Fin AXES, (a i - b i) ^ 2)
      = ∑ i : Fin 6, (a i - b i) ^ 2 := rfl
  rw [hsum, Fin.sum_univ_six]
  rw [show (0 : Fin 6) = AXIS_X from rfl, show (1 : Fin 6) = AXIS_Y from rfl,
    show (2 : Fin 6) = AXIS_Z from rfl, show (3 : Fin 6) = AXIS_A from rfl,
    show (4 : Fin 6) = AXIS_B from rfl, show (5 : Fin 6) = AXIS_C from rfl]
  simp only [pow_two]

/-- C9 (claim theorem): `axis_get_vector_length` equals the Euclidean distance
over the six axes X, Y, Z, A, B, C — the square root of the sum of squared
per-axis differences — and is a metric: zero on the diagonal, symmetric, and
satisfying the triangle inequality. -/
theorem axis_get_vector_length_metric :
    (∀ a b : Fin AXES → ℝ,
      axis_get_vector_length a b = Real.sqrt (∑ i, (a i - b i) ^ 2))
    ∧ (∀ a : Fin AXES → ℝ, axis_get_vector_length a a = 0)
    ∧ (∀ a b : Fin AXES → ℝ,
        axis_get_vector_length a b = axis_get_vector_length b a)
    ∧ (∀ a b c : Fin AXES → ℝ,
        axis_get_vector_length a b
          ≤ axis_get_vector_length a c + axis_get_vector_length c b) :=
  ⟨fun a b => (veclen_eq_dist a b).trans (toEuclid_dist a b),
   fun a => by rw [veclen_eq_dist]; exact dist_self _,
   fun a b => by rw [veclen_eq_dist, veclen_eq_dist]; exact dist_comm _ _,
   fun a b c => by
     rw [veclen_eq_dist a b, veclen_eq_dist a c, veclen_eq_dist c b]
     exact dist_triangle _ _ _⟩

/-! Axis-to-motor mapping (`axis_map_motors`). -/

/-- Example motor configuration: motor 0 assigned to axis 0, the other motors
unassigned. -/
def demoConfig1 : Fin MOTORS → Int := fun m => if m.val = 0 then 0 else -1

/-- Example motor configuration after a change: motor 0 reassigned to axis 1,
leaving axis 0 without a motor. -/
def demoConfig2 : Fin MOTORS → Int := fun m => if m.val = 0 then 1 else -1

/-- C10 (claim theorem): `axis_map_motors` never unmaps an axis — for every
axis for which no motor is currently configured, the `motor_map` entry, and
hence `axis_get_motor`, retains whatever value it held before the call; only
the static initializer makes an unconfigured axis read `-1`, so re-running
`axis_map_motors` after a motor configuration change can leave a stale
axis-to-motor mapping in place (concretely: after motor 0 moves from axis 0 to
axis 1, axis 0 still reads motor 0 instead of `-1`). -/
theorem axis_map_motors_frame :
    (∀ (motor_get_axis : Fin MOTORS → Int) (mmap : Fin AXES → Int)
       (axis : Fin AXES),
      (∀ m : Fin MOTORS, motor_get_axis m ≠ (axis : Int)) →
      axis_map_motors motor_get_axis mmap axis = mmap axis
      ∧ axis_get_motor (axis_map_motors motor_get_axis mmap) axis
          = axis_get_motor mmap axis)
    ∧ (axis_get_motor motor_map AXIS_X = -1
       ∧ axis_get_motor
           (axis_map_motors demoConfig2
             (axis_map_motors demoConfig1 motor_map)) AXIS_X = 0
       ∧ (∀ m : Fin MOTORS, demoConfig2 m ≠ (AXIS_X : Int))) := by
  constructor
  · intro motor_get_axis mmap axis h
    have hnone : firstMotorFor motor_get_axis axis = none := by
      unfold firstMotorFor
      rw [List.find?_eq_none]
      intro m _
      simp [h m]
    constructor
    · unfold axis_map_motors
      rw [hnone]
    · unfold axis_get_motor axis_map_motors
      rw [hnone]
  · exact ⟨by decide, by decide, by decide⟩

/-- C10 witness: the frame property applied to the changed configuration at
axis 0, whose no-motor hypothesis holds concretely. -/
theorem axis_map_motors_frame_witness :
    axis_map_motors demoConfig2 (axis_map_motors demoConfig1 motor_map) AXIS_X
      = axis_map_motors demoConfig1 motor_map AXIS_X :=
  (axis_map_motors_frame.1 demoConfig2
    (axis_map_motors demoConfig1 motor_map) AXIS_X (by decide)).1

end BBCtrl
